import Mathlib

/-!
Verification of the iterative back-translation trainer in
`src/pre-trained-model/train.py`.

The file shallowly embeds the data-flow and scheduling logic of
`train_model` and its helpers.  Token-id sequences are `List Int`; a
dataset is a list of rows.  The external collaborators (model forward
pass and generation, tokenizer encode/decode, metric, filesystem) are
treated as black boxes: generation is an abstract function supplied in
an environment, tokenization output arrives as already-encoded corpora,
and the unseeded random choices (train/test split, log sampling) are
abstract choice streams.
-/

namespace IBT

abbrev Seq := List Int

/-- Row of a monolingual encoded corpus: the tokenizer's `input_ids` and
`attention_mask` fields. -/
structure MonoRow where
  input_ids : Seq
  attention_mask : Seq
deriving DecidableEq

/-- Row of a parallel (or synthetic parallel) encoded corpus:
`input_ids`, `attention_mask` and `labels`. -/
structure ParRow where
  input_ids : Seq
  attention_mask : Seq
  labels : Seq
deriving DecidableEq

def dRow : ParRow := ⟨[], [], []⟩

/-- Embedding of one row of `fix_attention_mask` (train.py lines
306-315): drop every `input_ids` entry equal to `0` or `-100`, then set
the attention mask to a `1` for every kept token.  `labels` are not
touched. -/
def fixRow (r : ParRow) : ParRow :=
  { input_ids := r.input_ids.filter (fun x => !(x == 0) && !(x == -100)),
    attention_mask :=
      (r.input_ids.filter (fun x => !(x == 0) && !(x == -100))).map (fun _ => (1 : Int)),
    labels := r.labels }

/-- Embedding of `fix_attention_mask` over a batch; the batched `map` in
the source acts row by row. -/
def fix_attention_mask (rows : List ParRow) : List ParRow := rows.map fixRow

inductive IntWidth
  | i32
  | i64
deriving DecidableEq

/-- Synthetic corpus together with the declared integer widths of its
`labels` and `input_ids` columns. -/
structure SynCorpus where
  rows : List ParRow
  labelsWidth : IntWidth
  inputIdsWidth : IntWidth
deriving DecidableEq

def fitsI32 (x : Int) : Bool := decide (-(2 ^ 31) ≤ x) && decide (x < 2 ^ 31)

def fitsI64 (x : Int) : Bool := decide (-(2 ^ 63) ≤ x) && decide (x < 2 ^ 63)

/-- Embedding of the synthetic pair construction inside `train_model`
(train.py lines 147-160 and 216-228): rename `input_ids` to `labels`,
attach the model-generated sequences as the new `input_ids` column
(the external datasets library's `add_column` raises when the new
column's length differs from the dataset's row count), then cast
`labels` to a 64-bit and `input_ids` to a 32-bit integer sequence type
(a cast raises on overflow and is the identity on in-range values). -/
def buildRows (mono : List MonoRow) (gen : List Seq) : List ParRow :=
  List.zipWith (fun m g => ParRow.mk g m.attention_mask m.input_ids) mono gen

def buildSynthetic (mono : List MonoRow) (gen : List Seq) : Except String SynCorpus :=
  if gen.length = mono.length then
    if (buildRows mono gen).all (fun r => r.labels.all fitsI64) then
      if (buildRows mono gen).all (fun r => r.input_ids.all fitsI32) then
        Except.ok ⟨buildRows mono gen, IntWidth.i64, IntWidth.i32⟩
      else Except.error "cast: input_ids overflow int32"
    else Except.error "cast: labels overflow int64"
  else Except.error "add_column: column length mismatch"

/-- Model of Python `random.sample`'s selection loop: while draws
remain and the population is nonempty, remove the element at a position
chosen by the ambient random state (the `pick` stream) and emit it. -/
def sampleAux (pick : Nat → Nat) : List Nat → Nat → List Nat
  | _, 0 => []
  | pop, Nat.succ m =>
    if pop.length = 0 then []
    else pop.getD (pick m % pop.length) 0 ::
      sampleAux pick (pop.eraseIdx (pick m % pop.length)) m

/-- Model of Python `random.sample(range(n), k)` from its documented
contract: it raises `ValueError` when `k` exceeds the population size
and otherwise returns `k` distinct members of `range(n)`. -/
def randomSample (pick : Nat → Nat) (n k : Nat) : Except String (List Nat) :=
  if n < k then Except.error "ValueError"
  else Except.ok (sampleAux pick (List.range n) k)

/-- Embedding of `print_random_decoded_entries` (train.py lines
278-303): sample `numRows` row indices of the corpus without
replacement (`random.sample` raises `ValueError` when the corpus has
fewer rows than requested), and for each sampled index report the row's
`input_ids` with ignore-sentinel entries removed together with its
`labels`; decoding the ids to text and appending to the log file are the
external tokenizer and filesystem services. -/
def print_random_decoded_entries (pick : Nat → Nat) (rows : List ParRow) (numRows : Nat) :
    Except String (List (Nat × Seq × Seq)) :=
  match randomSample pick rows.length numRows with
  | Except.error e => Except.error e
  | Except.ok idxs =>
      Except.ok (idxs.map (fun i =>
        (i, (rows.getD i dRow).input_ids.filter (fun x => !(x == -100)),
            (rows.getD i dRow).labels)))

/-- Whitespace characters stripped by Python's `str.strip`. -/
def pyWs (c : Char) : Bool := c == ' ' || c == '\t' || c == '\n' || c == '\r'

/-- Model of Python's `str.strip`: drop leading and trailing whitespace. -/
def strip (s : String) : String :=
  String.mk (((s.data.dropWhile pyWs).reverse.dropWhile pyWs).reverse)

/-- Embedding of `yield_mono_lines` (train.py lines 380-389): read at
most `n` lines; a line whose stripped form is nonempty yields that
stripped form as a row, a blank line prints one diagnostic notice.  The
result is the yielded rows together with the number of notices. -/
def yield_mono_lines_aux : List String → Nat → List String × Nat
  | _, 0 => ([], 0)
  | [], _ => ([], 0)
  | l :: ls, Nat.succ m =>
    let p := yield_mono_lines_aux ls m
    if strip l == "" then (p.fst, p.snd + 1) else (strip l :: p.fst, p.snd)

def yield_mono_lines (lines : List String) (n : Nat) : List String × Nat :=
  yield_mono_lines_aux lines n

/-- Embedding of `yield_csv_lines` (train.py lines 359-369): read at
most `n` parsed csv rows; when the first field strips to nonempty and
the second field strips to nonempty, yield the raw (first, second)
pair; when the short-circuit test fails, print one notice.  Indexing a
field that a malformed row does not have raises `IndexError`, which
aborts the whole generator. -/
def yield_csv_lines_aux : List (List String) → Nat → Except String (List (String × String) × Nat)
  | _, 0 => Except.ok ([], 0)
  | [], _ => Except.ok ([], 0)
  | row :: rest, Nat.succ m =>
    match row with
    | [] => Except.error "IndexError"
    | a :: tail =>
      if strip a == "" then
        match yield_csv_lines_aux rest m with
        | Except.error e => Except.error e
        | Except.ok p => Except.ok (p.fst, p.snd + 1)
      else
        match tail with
        | [] => Except.error "IndexError"
        | b :: _ =>
          if strip b == "" then
            match yield_csv_lines_aux rest m with
            | Except.error e => Except.error e
            | Except.ok p => Except.ok (p.fst, p.snd + 1)
          else
            match yield_csv_lines_aux rest m with
            | Except.error e => Except.error e
            | Except.ok p => Except.ok ((a, b) :: p.fst, p.snd)

def yield_csv_lines (rows : List (List String)) (n : Nat) :
    Except String (List (String × String) × Nat) :=
  yield_csv_lines_aux rows n

/-- Translation direction of a model: source-to-target or
target-to-source. -/
inductive Dir
  | s2t
  | t2s
deriving DecidableEq

def Dir.opp : Dir → Dir
  | Dir.s2t => Dir.t2s
  | Dir.t2s => Dir.s2t

/-- State of one directional model, recorded as the list of
(train split, eval split) corpora it has been trained on; the external
gradient updates are opaque, so the history is the observable state. -/
abbrev Model := List (List ParRow × List ParRow)

/-- Observable phases of a `train_model` run, in execution order. -/
inductive Event
  | trainEv (iter : Nat) (d : Dir) (merged : List ParRow) (trainRows evalRows : List ParRow)
  | genEv (iter : Nat) (d : Dir) (output : List Seq)
  | logEv (iter : Nat) (rows : List ParRow) (indices : List Nat)
deriving DecidableEq

/-- External collaborators of the loop: `predict` is the black-box
generation backend (`Seq2SeqTrainer.predict`), `splitFlags` the
unseeded random choice behind each `train_test_split` call, and `pick`
the random state behind each `random.sample` call. -/
structure Env where
  predict : Dir → Model → List MonoRow → List Seq
  splitFlags : Nat → List Bool
  pick : Nat → Nat → Nat

/-- Encoded corpora handed to `train_model` after the external
tokenization maps: the two directions of the authentic parallel data
and the two monolingual corpora. -/
structure Inputs where
  authS2T : List ParRow
  authT2S : List ParRow
  srcMono : List MonoRow
  tgtMono : List MonoRow

/-- Monolingual corpus a generator of direction `d` runs over: the
target-to-source model reads monolingual target data, the
source-to-target model reads monolingual source data. -/
def monoOf (inp : Inputs) : Dir → List MonoRow
  | Dir.t2s => inp.tgtMono
  | Dir.s2t => inp.srcMono

/-- Authentic parallel corpus for training direction `d`. -/
def authOf (inp : Inputs) : Dir → List ParRow
  | Dir.s2t => inp.authS2T
  | Dir.t2s => inp.authT2S

/-- Model of `Dataset.train_test_split`: the external library moves a
randomly chosen subset of rows to the test side; the random choice is
the (unseeded) flag list, one flag per row, missing flags meaning
train. -/
def splitAux (flags : List Bool) : List ParRow → List ParRow × List ParRow
  | [] => ([], [])
  | r :: rs =>
    match flags with
    | [] =>
      let p := splitAux [] rs
      (r :: p.fst, p.snd)
    | f :: fs =>
      let p := splitAux fs rs
      if f then (p.fst, r :: p.snd) else (r :: p.fst, p.snd)

structure LoopState where
  s2tModel : Model
  t2sModel : Model
  splitCtr : Nat
  logCtr : Nat
  events : List Event

def modelOf (st : LoopState) : Dir → Model
  | Dir.s2t => st.s2tModel
  | Dir.t2s => st.t2sModel

def setTrained (st : LoopState) (d : Dir) (tr te : List ParRow) : LoopState :=
  match d with
  | Dir.s2t => { st with s2tModel := st.s2tModel ++ [(tr, te)] }
  | Dir.t2s => { st with t2sModel := st.t2sModel ++ [(tr, te)] }

/-- One half of the back-translation loop body (train.py lines 138-206
for the target-to-source generator, lines 208-273 for the mirror): the
direction-`d` model generates from its monolingual corpus, the
synthetic pairs are built and a random sample of them is logged, the
synthetic corpus is concatenated after the authentic data of the
opposite direction, the merged corpus is mask-repaired and split, and
the opposite model is trained on the result.  A raised error aborts. -/
def runHalf (env : Env) (inp : Inputs) (i : Nat) (d : Dir) (st : LoopState) :
    LoopState × Option String :=
  let out := env.predict d (modelOf st d) (monoOf inp d)
  let st1 := { st with events := st.events ++ [Event.genEv i d out] }
  match buildSynthetic (monoOf inp d) out with
  | Except.error e => (st1, some e)
  | Except.ok syn =>
    match randomSample (env.pick st1.logCtr) syn.rows.length 10 with
    | Except.error e => (st1, some e)
    | Except.ok idxs =>
      let st2 := { st1 with
        events := st1.events ++ [Event.logEv i syn.rows idxs],
        logCtr := st1.logCtr + 1 }
      let merged := (authOf inp d.opp ++ syn.rows).map fixRow
      let p := splitAux (env.splitFlags st2.splitCtr) merged
      let st3 := { st2 with
        splitCtr := st2.splitCtr + 1,
        events := st2.events ++ [Event.trainEv i d.opp merged p.fst p.snd] }
      (setTrained st3 d.opp p.fst p.snd, none)

/-- One full iteration of the loop: generate with the target-to-source
model and retrain source-to-target, then generate with the freshly
trained source-to-target model and retrain target-to-source. -/
def runIter (env : Env) (inp : Inputs) (i : Nat) (st : LoopState) :
    LoopState × Option String :=
  match runHalf env inp i Dir.t2s st with
  | (st1, some e) => (st1, some e)
  | (st1, none) => runHalf env inp i Dir.s2t st1

def runLoop (env : Env) (inp : Inputs) : Nat → Nat → LoopState → LoopState × Option String
  | _, 0, st => (st, none)
  | i, Nat.succ rem, st =>
    match runIter env inp i st with
    | (st1, some e) => (st1, some e)
    | (st1, none) => runLoop env inp (i + 1) rem st1

structure RunResult where
  events : List Event
  outcome : Except String (Model × Model)

/-- Embedding of `train_model` (train.py lines 15-275).  The run first
trains the target-to-source model on a split of the authentic parallel
data (warm-up, iteration 0), then executes the back-translation body
for iterations 1 to `iterations`, recording every training, generation
and logging phase as an event; any raised error aborts the run and is
the outcome.  On success the outcome carries both final models, the
source-to-target one first, as in the source's return statement. -/
def initState (env : Env) (inp : Inputs) (s2t0 t2s0 : Model) : LoopState :=
  { s2tModel := s2t0,
    t2sModel := t2s0 ++ [((splitAux (env.splitFlags 0) inp.authT2S).fst,
                          (splitAux (env.splitFlags 0) inp.authT2S).snd)],
    splitCtr := 1,
    logCtr := 0,
    events := [Event.trainEv 0 Dir.t2s inp.authT2S
      (splitAux (env.splitFlags 0) inp.authT2S).fst
      (splitAux (env.splitFlags 0) inp.authT2S).snd] }

def train_model (env : Env) (inp : Inputs) (s2t0 t2s0 : Model) (iterations : Nat) : RunResult :=
  let r := runLoop env inp 1 iterations (initState env inp s2t0 t2s0)
  { events := r.fst.events,
    outcome :=
      match r.snd with
      | some e => Except.error e
      | none => Except.ok (r.fst.s2tModel, r.fst.t2sModel) }

def exceptOk {α : Type} : Except String α → Bool
  | Except.ok _ => true
  | Except.error _ => false

/-- Directions of the training phases of a trace, in order. -/
def trainDirs (evts : List Event) : List Dir :=
  evts.filterMap (fun e =>
    match e with
    | Event.trainEv _ d _ _ _ => some d
    | _ => none)

/-- Directions of the generation phases of a trace, in order. -/
def genDirs (evts : List Event) : List Dir :=
  evts.filterMap (fun e =>
    match e with
    | Event.genEv _ d _ => some d
    | _ => none)

def numLogs (evts : List Event) : Nat :=
  (evts.filter (fun e =>
    match e with
    | Event.logEv _ _ _ => true
    | _ => false)).length

/-- Trace restricted to training and generation phases. -/
def phases (evts : List Event) : List Event :=
  evts.filter (fun e =>
    match e with
    | Event.logEv _ _ _ => false
    | _ => true)

/-- The merged corpus trained right after a direction-`d` generation
must be the authentic data of the opposite direction concatenated with
the synthetic corpus built from exactly that generation's output, then
mask-repaired. -/
def pairCorpusOk (inp : Inputs) (d : Dir) (out : List Seq) (merged : List ParRow) : Bool :=
  match buildSynthetic (monoOf inp d) out with
  | Except.ok syn => decide (merged = (authOf inp d.opp ++ syn.rows).map fixRow)
  | Except.error _ => false

/-- Checker for the alternation invariant on the training/generation
phase list: every generation phase is immediately followed by a
training phase of the same iteration and of the opposite direction,
trained on the merge of that direction's authentic data with the
synthetic corpus built from this generation's output. -/
def altOk (inp : Inputs) : List Event → Bool
  | [] => true
  | Event.genEv i d out :: rest =>
    (match rest with
     | Event.trainEv j d2 merged _ _ :: _ =>
       decide (d2 = d.opp) && decide (j = i) && pairCorpusOk inp d out merged
     | _ => false) && altOk inp rest
  | _ :: rest => altOk inp rest

def logRowsOk (inp : Inputs) (d : Dir) (out : List Seq) (rows : List ParRow) : Bool :=
  match buildSynthetic (monoOf inp d) out with
  | Except.ok syn => decide (rows = syn.rows)
  | Except.error _ => false

/-- Checker: every generation event is immediately followed by a log
event of the same iteration whose logged rows are the synthetic corpus
exactly as built, before any mask repair. -/
def logAdjOk (inp : Inputs) : List Event → Bool
  | [] => true
  | Event.genEv i d out :: rest =>
    (match rest with
     | Event.logEv j rows _ :: _ => decide (j = i) && logRowsOk inp d out rows
     | _ => false) && logAdjOk inp rest
  | _ :: rest => logAdjOk inp rest

/-- Mask-repaired row: no pad or ignore sentinel among the input ids,
and an all-ones attention mask of the same length. -/
def fixedRow (r : ParRow) : Prop :=
  (0 : Int) ∉ r.input_ids ∧ (-100 : Int) ∉ r.input_ids ∧
    r.attention_mask = List.replicate r.input_ids.length 1

/-- Shape of the event suffix produced by `rem` successful iterations of
the back-translation loop: each iteration generates with the
target-to-source model, logs and trains source-to-target on the merged
repaired corpus, then mirrors with the roles exchanged. -/
inductive EvBlocks (inp : Inputs) : Nat → List Event → Prop
  | nil : EvBlocks inp 0 []
  | cons (rem i : Nat) (outA : List Seq) (synA : SynCorpus) (idxA : List Nat) (fA : List Bool)
      (outB : List Seq) (synB : SynCorpus) (idxB : List Nat) (fB : List Bool)
      (rest : List Event)
      (hA : buildSynthetic inp.tgtMono outA = Except.ok synA)
      (hB : buildSynthetic inp.srcMono outB = Except.ok synB)
      (hrest : EvBlocks inp rem rest) :
      EvBlocks inp (rem + 1)
        (Event.genEv i Dir.t2s outA ::
         Event.logEv i synA.rows idxA ::
         Event.trainEv i Dir.s2t ((inp.authS2T ++ synA.rows).map fixRow)
           (splitAux fA ((inp.authS2T ++ synA.rows).map fixRow)).fst
           (splitAux fA ((inp.authS2T ++ synA.rows).map fixRow)).snd ::
         Event.genEv i Dir.s2t outB ::
         Event.logEv i synB.rows idxB ::
         Event.trainEv i Dir.t2s ((inp.authT2S ++ synB.rows).map fixRow)
           (splitAux fB ((inp.authT2S ++ synB.rows).map fixRow)).fst
           (splitAux fB ((inp.authT2S ++ synB.rows).map fixRow)).snd ::
         rest)

def dMono : MonoRow := ⟨[], []⟩

/-- Shape precondition under which `yield_csv_lines` never indexes a
missing field in the first `n` rows: every such row is nonempty, and
has a second field whenever its first field strips to nonempty. -/
def csvGoodShapeB (rows : List (List String)) (n : Nat) : Bool :=
  (rows.take n).all (fun r =>
    match r with
    | [] => false
    | a :: tail => (strip a == "") || !tail.isEmpty)

/-- Well-formed pair yielded by the csv loader from one row. -/
def csvPairOf (r : List String) : Option (String × String) :=
  match r with
  | a :: b :: _ => if !(strip a == "") && !(strip b == "") then some (a, b) else none
  | _ => none

/-- Row the csv loader skips with a notice: the first field strips to
empty, or a second field exists and strips to empty. -/
def csvSkippedB (r : List String) : Bool :=
  match r with
  | [] => false
  | a :: tail =>
    (strip a == "") ||
      (match tail with
       | b :: _ => strip b == ""
       | [] => false)

/-! Concrete fixtures used by witnesses and counterexamples. -/

def monoC4 : List MonoRow := [⟨[5, 6], [1, 1]⟩]

def genC4 : List Seq := [[0, 7]]

def synC4 : SynCorpus := ⟨[⟨[0, 7], [1, 1], [5, 6]⟩], IntWidth.i64, IntWidth.i32⟩

def scenarioLines : List String := ["a", "", "b c", "d", "", "e", "f", "", "g h", "i"]

def rowsW6 : List (List String) := [["x", "y"], ["", "z"], ["a", ""]]

def pickW : Nat → Nat := fun _ => 0

def outW9 : List (Nat × Seq × Seq) := (List.range 10).map (fun i => (i, [], []))

def envW : Env :=
  { predict := fun _ _ mono => mono.map (fun _ => [3, 0, 4]),
    splitFlags := fun _ => [true],
    pick := fun _ _ => 0 }

def inpW : Inputs :=
  { authS2T := [⟨[11, 12], [1, 1], [21, 22]⟩],
    authT2S := [⟨[31], [1], [41]⟩],
    srcMono := List.replicate 10 ⟨[7, 8], [1, 1]⟩,
    tgtMono := List.replicate 10 ⟨[9], [1]⟩ }

def envBadW : Env :=
  { predict := fun _ _ _ => [],
    splitFlags := fun _ => [true],
    pick := fun _ _ => 0 }

def mergedW : List ParRow := ⟨[11, 12], [1, 1], [21, 22]⟩ :: List.replicate 10 ⟨[3, 4], [1, 1], [9]⟩

def trW : List ParRow := List.replicate 10 ⟨[3, 4], [1, 1], [9]⟩

def teW : List ParRow := [⟨[11, 12], [1, 1], [21, 22]⟩]

/-- Invariant over a trace: every training phase of the loop body
(iteration at least 1) trains on a merged corpus, and on train and eval
partitions of it, made of mask-repaired rows only. -/
def FixedInv (evts : List Event) : Prop :=
  ∀ i d merged tr te, Event.trainEv i d merged tr te ∈ evts → 1 ≤ i →
    (∀ r ∈ merged, fixedRow r) ∧ (∀ r ∈ tr, fixedRow r) ∧ (∀ r ∈ te, fixedRow r)

/-! Helper lemmas. -/

theorem fixRow_fixed (r : ParRow) : fixedRow (fixRow r) := by
  refine ⟨?_, ?_, ?_⟩
  · intro h
    have := (List.mem_filter.mp h).2
    simp at this
  · intro h
    have := (List.mem_filter.mp h).2
    simp at this
  · simp [fixRow, List.map_const']

theorem fixRow_labels (r : ParRow) : (fixRow r).labels = r.labels := rfl

theorem fixRow_sublist (r : ParRow) : List.Sublist (fixRow r).input_ids r.input_ids :=
  List.filter_sublist r.input_ids

theorem getD_map_fixRow (l : List ParRow) (j : Nat) (h : j < l.length) :
    (l.map fixRow).getD j dRow = fixRow (l.getD j dRow) := by
  induction l generalizing j with
  | nil => simp at h
  | cons a t ih =>
    cases j with
    | zero => simp
    | succ m =>
      simp only [List.map_cons, List.getD_cons_succ]
      exact ih m (Nat.lt_of_succ_lt_succ h)

theorem mem_map_fixRow_fixed {l : List ParRow} {r : ParRow} (h : r ∈ l.map fixRow) :
    fixedRow r := by
  rcases List.mem_map.mp h with ⟨x, _, rfl⟩
  exact fixRow_fixed x

theorem splitAux_fst_subset (flags : List Bool) (rows : List ParRow) :
    ∀ r ∈ (splitAux flags rows).fst, r ∈ rows := by
  induction rows generalizing flags with
  | nil => simp [splitAux]
  | cons a t ih =>
    intro r hr
    cases flags with
    | nil =>
      simp only [splitAux] at hr
      rcases List.mem_cons.mp hr with h | h
      · exact h ▸ List.mem_cons_self a t
      · exact List.mem_cons_of_mem a (ih [] r h)
    | cons f fs =>
      simp only [splitAux] at hr
      cases f with
      | true =>
        simp only [if_pos rfl] at hr
        exact List.mem_cons_of_mem a (ih fs r hr)
      | false =>
        simp only [Bool.false_eq_true, if_neg (Bool.false_ne_true)] at hr
        rcases List.mem_cons.mp hr with h | h
        · exact h ▸ List.mem_cons_self a t
        · exact List.mem_cons_of_mem a (ih fs r h)

theorem splitAux_snd_subset (flags : List Bool) (rows : List ParRow) :
    ∀ r ∈ (splitAux flags rows).snd, r ∈ rows := by
  induction rows generalizing flags with
  | nil => simp [splitAux]
  | cons a t ih =>
    intro r hr
    cases flags with
    | nil =>
      simp only [splitAux] at hr
      exact List.mem_cons_of_mem a (ih [] r hr)
    | cons f fs =>
      simp only [splitAux] at hr
      cases f with
      | true =>
        simp only [if_pos rfl] at hr
        rcases List.mem_cons.mp hr with h | h
        · exact h ▸ List.mem_cons_self a t
        · exact List.mem_cons_of_mem a (ih fs r h)
      | false =>
        simp only [Bool.false_eq_true, if_neg (Bool.false_ne_true)] at hr
        exact List.mem_cons_of_mem a (ih fs r hr)

/-! Claim theorems. -/

/-- C3: after mask repair by `fix_attention_mask`, every row of the
batch has no `0` (pad sentinel) and no `-100` (ignore sentinel) among
its `input_ids`, an attention mask consisting only of `1`s of the same
length as `input_ids`, and the surviving `input_ids` in their original
relative order (a sublist of the row's original ids); `labels` and the
number of rows are unchanged. -/
theorem c3_mask_repair (rows : List ParRow) (j : Nat) (hj : j < rows.length) :
    (fix_attention_mask rows).length = rows.length ∧
    (0 : Int) ∉ ((fix_attention_mask rows).getD j dRow).input_ids ∧
    (-100 : Int) ∉ ((fix_attention_mask rows).getD j dRow).input_ids ∧
    ((fix_attention_mask rows).getD j dRow).attention_mask
      = List.replicate ((fix_attention_mask rows).getD j dRow).input_ids.length 1 ∧
    ((fix_attention_mask rows).getD j dRow).attention_mask.length
      = ((fix_attention_mask rows).getD j dRow).input_ids.length ∧
    List.Sublist ((fix_attention_mask rows).getD j dRow).input_ids
      (rows.getD j dRow).input_ids ∧
    ((fix_attention_mask rows).getD j dRow).labels = (rows.getD j dRow).labels := by
  have hrow : (fix_attention_mask rows).getD j dRow = fixRow (rows.getD j dRow) :=
    getD_map_fixRow rows j hj
  have hfix := fixRow_fixed (rows.getD j dRow)
  refine ⟨List.length_map rows fixRow, ?_, ?_, ?_, ?_, ?_, ?_⟩
  · rw [hrow]; exact hfix.1
  · rw [hrow]; exact hfix.2.1
  · rw [hrow]; exact hfix.2.2
  · rw [hrow, hfix.2.2, List.length_replicate]
  · rw [hrow]; exact fixRow_sublist (rows.getD j dRow)
  · rw [hrow]; exact fixRow_labels (rows.getD j dRow)

/-- Witness for C3 at the concrete batch `[⟨[5, 0, -100, 7], [1, 1, 1, 1], [9]⟩]`. -/
theorem c3_mask_repair_witness :
    (0 : Nat) < ([(⟨[5, 0, -100, 7], [1, 1, 1, 1], [9]⟩ : ParRow)] : List ParRow).length ∧
    ((0 : Int) ∉ ((fix_attention_mask [⟨[5, 0, -100, 7], [1, 1, 1, 1], [9]⟩]).getD 0 dRow).input_ids ∧
      (-100 : Int) ∉ ((fix_attention_mask [⟨[5, 0, -100, 7], [1, 1, 1, 1], [9]⟩]).getD 0 dRow).input_ids) := by
  refine ⟨by decide, ?_, ?_⟩
  · exact (c3_mask_repair [⟨[5, 0, -100, 7], [1, 1, 1, 1], [9]⟩] 0 (by decide)).2.1
  · exact (c3_mask_repair [⟨[5, 0, -100, 7], [1, 1, 1, 1], [9]⟩] 0 (by decide)).2.2.1

/-- C4 counterexample: the synthetic corpus exactly as produced by the
builder steps the claim names (rename `input_ids` to `labels`, attach
the generated sequences as `input_ids`, cast the widths) can contain
the pad sentinel `0` among its `input_ids`: the generated sequence
`[0, 7]` is attached verbatim.  Mask repair only happens later, on the
corpus merged with the authentic data. -/
theorem c4_counterexample :
    buildSynthetic monoC4 genC4 = Except.ok synC4 ∧
    (0 : Int) ∈ (synC4.rows.getD 0 dRow).input_ids := by
  constructor
  · rfl
  · decide

/-- C4 amended: no `input_ids` entry equals the pad sentinel `0` or the
ignore sentinel `-100` once `fix_attention_mask` has been applied to
the corpus obtained by concatenating any authentic data with the
builder's rows — which is what `train_model` does before training; the
builder's raw output itself may still contain sentinels. -/
theorem c4_sentinel_free_after_repair (mono : List MonoRow) (gen : List Seq)
    (syn : SynCorpus) (auth : List ParRow)
    (_h : buildSynthetic mono gen = Except.ok syn) :
    ∀ r ∈ fix_attention_mask (auth ++ syn.rows),
      (0 : Int) ∉ r.input_ids ∧ (-100 : Int) ∉ r.input_ids := by
  intro r hr
  have := mem_map_fixRow_fixed (l := auth ++ syn.rows) (r := r) hr
  exact ⟨this.1, this.2.1⟩

/-- Witness for C4's amended theorem at the counterexample corpus. -/
theorem c4_sentinel_free_after_repair_witness :
    buildSynthetic monoC4 genC4 = Except.ok synC4 ∧
    ((0 : Int) ∉ (fixRow ⟨[0, 7], [1, 1], [5, 6]⟩).input_ids ∧
      (-100 : Int) ∉ (fixRow ⟨[0, 7], [1, 1], [5, 6]⟩).input_ids) := by
  refine ⟨by rfl, ?_⟩
  exact c4_sentinel_free_after_repair monoC4 genC4 synC4 [] (by rfl)
    (fixRow ⟨[0, 7], [1, 1], [5, 6]⟩) (by decide)

/-- C5 counterexample: with the file `["", "a"]` and cap `n = 1`,
`yield_mono_lines` yields no row at all, although the file's one
non-blank line together with a cap of one yielded row would demand the
row `"a"`: the source caps the number of lines read, not the number of
rows yielded, so a blank line inside the first `n` lines loses a
non-blank line beyond them. -/
theorem c5_counterexample :
    (yield_mono_lines ["", "a"] 1).fst = [] ∧
    ((((["", "a"] : List String).filter (fun l => !(strip l == ""))).map strip).take 1)
      = ["a"] := by
  constructor
  · rfl
  · rfl

/-- C5 amended: `yield_mono_lines` reads at most the first `n` lines of
the file; among those it yields the stripped line for every non-blank
line and emits exactly one skip notice per blank line, so the number of
yielded rows never exceeds `n`; a file of 3 blank and 7 valid lines
(with the cap not yet reached) yields a 7-row corpus and exactly 3 skip
notices. -/
theorem c5_mono_lines (lines : List String) (n : Nat) :
    yield_mono_lines lines n
      = (((lines.take n).filter (fun l => !(strip l == ""))).map strip,
         ((lines.take n).filter (fun l => strip l == "")).length) ∧
    (yield_mono_lines lines n).fst.length ≤ n ∧
    yield_mono_lines scenarioLines 1000000
      = (["a", "b c", "d", "e", "f", "g h", "i"], 3) := by
  have main : ∀ (ls : List String) (m : Nat),
      yield_mono_lines ls m
        = (((ls.take m).filter (fun l => !(strip l == ""))).map strip,
           ((ls.take m).filter (fun l => strip l == "")).length) := by
    intro ls
    induction ls with
    | nil => intro m; cases m <;> rfl
    | cons l t ih =>
      intro m
      cases m with
      | zero => rfl
      | succ k =>
        show yield_mono_lines_aux (l :: t) (k + 1) = _
        have ihk := ih k
        simp only [yield_mono_lines] at ihk
        simp only [yield_mono_lines_aux, List.take_succ_cons, List.filter_cons]
        cases hl : (strip l == "") with
        | true => simp [hl, ihk]
        | false => simp [hl, ihk]
  refine ⟨main lines n, ?_, ?_⟩
  · rw [main lines n]
    calc (((lines.take n).filter (fun l => !(strip l == ""))).map strip).length
        = ((lines.take n).filter (fun l => !(strip l == ""))).length :=
          List.length_map _ _
      _ ≤ (lines.take n).length := List.length_filter_le _ _
      _ ≤ n := List.length_take_le n lines
  · rfl

/-- C6 counterexample: a malformed csv row with a single (non-blank)
field makes `yield_csv_lines` raise `IndexError` and abort loading,
while the claim demands the row be skipped with a notice and loading
continue (`.ok ([], 1)`). -/
theorem c6_counterexample :
    yield_csv_lines [["hello"]] 1000000 = Except.error "IndexError" ∧
    (Except.error "IndexError"
      ≠ (Except.ok ([], 1) : Except String (List (String × String) × Nat))) := by
  constructor
  · rfl
  · intro h
    exact Except.noConfusion h

/-- C6 amended: among the first `n` parsed rows, provided every row is
nonempty and has a second field whenever its first field strips to
nonempty, the loader yields the raw (first, second) pair of every row
whose first two fields both strip to nonempty, and skips every other
row with exactly one notice each, without aborting; a row with no
fields, or with a non-blank first field and no second field, instead
raises `IndexError` and aborts loading. -/
theorem c6_csv_lines (rows : List (List String)) (n : Nat)
    (h : csvGoodShapeB rows n = true) :
    yield_csv_lines rows n
      = Except.ok ((rows.take n).filterMap csvPairOf,
                   ((rows.take n).filter csvSkippedB).length) := by
  induction rows generalizing n with
  | nil => cases n <;> rfl
  | cons r rest ih =>
    cases n with
    | zero => rfl
    | succ m =>
      have h2 := h
      unfold csvGoodShapeB at h2
      simp only [List.take_succ_cons, List.all_cons, Bool.and_eq_true] at h2
      have hr := h2.1
      have hrest : csvGoodShapeB rest m = true := by
        unfold csvGoodShapeB
        exact h2.2
      cases r with
      | nil => simp at hr
      | cons a tail =>
        have hrec := ih m hrest
        simp only [yield_csv_lines] at hrec
        show yield_csv_lines_aux ((a :: tail) :: rest) (m + 1) = _
        simp only [yield_csv_lines_aux]
        cases ha : (strip a == "") with
        | true =>
          have hp : csvPairOf (a :: tail) = none := by
            cases tail with
            | nil => rfl
            | cons b tb => simp [csvPairOf, ha]
          have hs : csvSkippedB (a :: tail) = true := by
            simp [csvSkippedB, ha]
          simp [ha, hrec, List.take_succ_cons, List.filterMap_cons, List.filter_cons, hp, hs]
        | false =>
          cases tail with
          | nil =>
            exfalso
            simp [ha] at hr
          | cons b tb =>
            cases hb : (strip b == "") with
            | true =>
              have hp : csvPairOf (a :: b :: tb) = none := by
                simp [csvPairOf, hb]
              have hs : csvSkippedB (a :: b :: tb) = true := by
                simp [csvSkippedB, hb]
              simp [ha, hb, hrec, List.take_succ_cons, List.filterMap_cons,
                List.filter_cons, hp, hs]
            | false =>
              have hp : csvPairOf (a :: b :: tb) = some (a, b) := by
                simp [csvPairOf, ha, hb]
              have hs : csvSkippedB (a :: b :: tb) = false := by
                simp [csvSkippedB, ha, hb]
              simp [ha, hb, hrec, List.take_succ_cons, List.filterMap_cons,
                List.filter_cons, hp, hs]

/-- Witness for C6's amended theorem on a concrete csv source with one
well-formed row, one row with a blank first field and one with a blank
second field. -/
theorem c6_csv_lines_witness :
    csvGoodShapeB rowsW6 1000000 = true ∧
    yield_csv_lines rowsW6 1000000 = Except.ok ([("x", "y")], 2) := by
  refine ⟨by rfl, ?_⟩
  exact (c6_csv_lines rowsW6 1000000 (by rfl)).trans (by rfl)

theorem buildRows_getD (mono : List MonoRow) (gen : List Seq)
    (hlen : gen.length = mono.length) (j : Nat) :
    ((buildRows mono gen).getD j dRow).labels = (mono.getD j dMono).input_ids ∧
    ((buildRows mono gen).getD j dRow).input_ids = gen.getD j [] := by
  unfold buildRows
  induction mono generalizing gen j with
  | nil =>
    have hg : gen = [] := List.eq_nil_of_length_eq_zero (by simpa using hlen)
    subst hg
    constructor <;> cases j <;> rfl
  | cons mh mt ih =>
    cases gen with
    | nil => simp at hlen
    | cons gh gt =>
      cases j with
      | zero => constructor <;> rfl
      | succ k =>
        have hlen2 : gt.length = mt.length := by simpa using hlen
        simpa using ih gt hlen2 k

theorem buildSynthetic_ok (mono : List MonoRow) (gen : List Seq) (syn : SynCorpus)
    (h : buildSynthetic mono gen = Except.ok syn) :
    syn.labelsWidth = IntWidth.i64 ∧ syn.inputIdsWidth = IntWidth.i32 ∧
    syn.rows.length = mono.length ∧
    (∀ j, (syn.rows.getD j dRow).labels = (mono.getD j dMono).input_ids) ∧
    (∀ j, (syn.rows.getD j dRow).input_ids = gen.getD j []) := by
  unfold buildSynthetic at h
  by_cases hlen : gen.length = mono.length
  · rw [if_pos hlen] at h
    split at h
    · split at h
      · have hsyn := (Except.ok.inj h).symm
        subst hsyn
        refine ⟨rfl, rfl, ?_, ?_, ?_⟩
        · simp [buildRows, List.length_zipWith, hlen]
        · intro j; exact (buildRows_getD mono gen hlen j).1
        · intro j; exact (buildRows_getD mono gen hlen j).2
      · exact absurd h (by simp)
    · exact absurd h (by simp)
  · rw [if_neg hlen] at h
    exact absurd h (by simp)

/-- C7: the synthetic corpus carries, row for row, `labels` equal to the
monolingual corpus's original `input_ids` under the 64-bit cast and
`input_ids` equal to the model-generated sequences under the 32-bit
cast, with the declared widths int64 for `labels` and int32 for
`input_ids` (the fixed-width contract the merged parallel corpus
expects for concatenation). -/
theorem c7_synthetic_schema (mono : List MonoRow) (gen : List Seq) (syn : SynCorpus)
    (h : buildSynthetic mono gen = Except.ok syn) :
    syn.labelsWidth = IntWidth.i64 ∧ syn.inputIdsWidth = IntWidth.i32 ∧
    syn.rows.length = mono.length ∧
    (∀ j, (syn.rows.getD j dRow).labels = (mono.getD j dMono).input_ids) ∧
    (∀ j, (syn.rows.getD j dRow).input_ids = gen.getD j []) :=
  buildSynthetic_ok mono gen syn h

/-- Witness for C7 at the concrete corpus fixture `monoC4`/`genC4`. -/
theorem c7_synthetic_schema_witness :
    buildSynthetic monoC4 genC4 = Except.ok synC4 ∧
    (synC4.labelsWidth = IntWidth.i64 ∧ synC4.inputIdsWidth = IntWidth.i32 ∧
      (synC4.rows.getD 0 dRow).labels = (monoC4.getD 0 dMono).input_ids ∧
      (synC4.rows.getD 0 dRow).input_ids = genC4.getD 0 []) := by
  refine ⟨by rfl, ?_, ?_, ?_, ?_⟩
  · exact (c7_synthetic_schema monoC4 genC4 synC4 (by rfl)).1
  · exact (c7_synthetic_schema monoC4 genC4 synC4 (by rfl)).2.1
  · exact (c7_synthetic_schema monoC4 genC4 synC4 (by rfl)).2.2.2.1 0
  · exact (c7_synthetic_schema monoC4 genC4 synC4 (by rfl)).2.2.2.2 0

theorem nodup_getD_not_mem_eraseIdx :
    ∀ (l : List Nat) (i : Nat), l.Nodup → i < l.length → l.getD i 0 ∉ l.eraseIdx i := by
  intro l
  induction l with
  | nil => intro i _ hi; simp at hi
  | cons a t ih =>
    intro i hnd hi
    cases i with
    | zero =>
      simpa using (List.nodup_cons.mp hnd).1
    | succ k =>
      simp only [List.getD_cons_succ, List.eraseIdx_cons_succ]
      intro hmem
      have hk : k < t.length := Nat.lt_of_succ_lt_succ hi
      rcases List.mem_cons.mp hmem with h | h
      · have hin : t.getD k 0 ∈ t := by
          rw [List.getD_eq_getElem _ _ hk]
          exact List.getElem_mem hk
        exact (List.nodup_cons.mp hnd).1 (h ▸ hin)
      · exact ih k (List.nodup_cons.mp hnd).2 hk h

theorem sampleAux_mem (pick : Nat → Nat) :
    ∀ (k : Nat) (pop : List Nat), ∀ x ∈ sampleAux pick pop k, x ∈ pop := by
  intro k
  induction k with
  | zero => intro pop x hx; simp [sampleAux] at hx
  | succ m ih =>
    intro pop x hx
    by_cases hl : pop.length = 0
    · simp [sampleAux, hl] at hx
    · simp only [sampleAux, if_neg hl] at hx
      have hi : pick m % pop.length < pop.length :=
        Nat.mod_lt _ (Nat.pos_of_ne_zero hl)
      rcases List.mem_cons.mp hx with h | h
      · subst h
        rw [List.getD_eq_getElem _ _ hi]
        exact List.getElem_mem hi
      · exact (List.eraseIdx_sublist pop (pick m % pop.length)).subset (ih _ x h)

theorem sampleAux_nodup (pick : Nat → Nat) :
    ∀ (k : Nat) (pop : List Nat), pop.Nodup → (sampleAux pick pop k).Nodup := by
  intro k
  induction k with
  | zero => intro pop _; simp [sampleAux]
  | succ m ih =>
    intro pop hnd
    by_cases hl : pop.length = 0
    · simp [sampleAux, hl]
    · simp only [sampleAux, if_neg hl]
      refine List.nodup_cons.mpr ⟨?_, ih _ (hnd.sublist (List.eraseIdx_sublist pop _))⟩
      intro hmem
      exact nodup_getD_not_mem_eraseIdx pop _ hnd
        (Nat.mod_lt _ (Nat.pos_of_ne_zero hl)) (sampleAux_mem pick m _ _ hmem)

theorem sampleAux_length (pick : Nat → Nat) :
    ∀ (k : Nat) (pop : List Nat), k ≤ pop.length → (sampleAux pick pop k).length = k := by
  intro k
  induction k with
  | zero => intro pop _; rfl
  | succ m ih =>
    intro pop hk
    have hl : pop.length ≠ 0 := by omega
    have hlen : (pop.eraseIdx (pick m % pop.length)).length = pop.length - 1 :=
      List.length_eraseIdx_of_lt (Nat.mod_lt _ (Nat.pos_of_ne_zero hl))
    simp only [sampleAux, if_neg hl, List.length_cons]
    rw [ih _ (by omega)]

/-- C9: the sample logger raises `ValueError` whenever the requested
sample count exceeds the corpus's number of rows, and on success the
report has exactly the requested number of entries whose row indices
are pairwise distinct (sampling is without replacement, so no row index
is ever logged twice) and all within the corpus; uniformity of the draw
is a property of the external random number generator, modelled here by
the arbitrary `pick` stream. -/
theorem c9_sample_logger (pick : Nat → Nat) (rows : List ParRow) (numRows : Nat) :
    (rows.length < numRows →
      print_random_decoded_entries pick rows numRows = Except.error "ValueError") ∧
    (∀ out, print_random_decoded_entries pick rows numRows = Except.ok out →
      out.length = numRows ∧ (out.map Prod.fst).Nodup ∧
      (out.map Prod.fst).all (fun i => decide (i < rows.length)) = true) := by
  constructor
  · intro hlt
    unfold print_random_decoded_entries randomSample
    rw [if_pos hlt]
  · intro out hout
    unfold print_random_decoded_entries randomSample at hout
    by_cases hlt : rows.length < numRows
    · rw [if_pos hlt] at hout
      exact absurd hout (by simp)
    · rw [if_neg hlt] at hout
      have hidx := (Except.ok.inj hout).symm
      have hfst : out.map Prod.fst = sampleAux pick (List.range rows.length) numRows := by
        rw [hidx, List.map_map]
        have : (Prod.fst ∘ fun i : Nat =>
            (i, (rows.getD i dRow).input_ids.filter (fun x => !(x == -100)),
              (rows.getD i dRow).labels)) = id := by
          funext i
          rfl
        rw [this, List.map_id]
      have hk : numRows ≤ (List.range rows.length).length := by
        rw [List.length_range]
        omega
      refine ⟨?_, ?_, ?_⟩
      · rw [hidx, List.length_map, sampleAux_length pick numRows _ hk]
      · rw [hfst]
        exact sampleAux_nodup pick numRows _ (List.nodup_range rows.length)
      · rw [hfst, List.all_eq_true]
        intro i hi
        have := sampleAux_mem pick numRows _ i hi
        simp [List.mem_range] at this
        simpa using this

/-- Witness for C9: a 5-row corpus with 10 requested samples raises,
and a 10-row corpus yields 10 distinct in-range indices. -/
theorem c9_sample_logger_witness :
    ((List.replicate 5 dRow : List ParRow).length < 10 ∧
      print_random_decoded_entries pickW (List.replicate 5 dRow) 10
        = Except.error "ValueError") ∧
    (print_random_decoded_entries pickW (List.replicate 10 dRow) 10 = Except.ok outW9 ∧
      outW9.length = 10 ∧ (outW9.map Prod.fst).Nodup ∧
      (outW9.map Prod.fst).all (fun i =>
        decide (i < (List.replicate 10 dRow : List ParRow).length)) = true) := by
  refine ⟨⟨by decide, ?_⟩, by rfl, ?_⟩
  · exact (c9_sample_logger pickW (List.replicate 5 dRow) 10).1 (by decide)
  · exact (c9_sample_logger pickW (List.replicate 10 dRow) 10).2 outW9 (by rfl)

theorem setTrained_events (st : LoopState) (d : Dir) (tr te : List ParRow) :
    (setTrained st d tr te).events = st.events := by
  cases d <;> rfl

theorem setTrained_splitCtr (st : LoopState) (d : Dir) (tr te : List ParRow) :
    (setTrained st d tr te).splitCtr = st.splitCtr := by
  cases d <;> rfl

theorem runHalf_err (env : Env) (inp : Inputs) (i : Nat) (d : Dir) (st st2 : LoopState)
    (e : String) (h : runHalf env inp i d st = (st2, some e)) :
    st2.events
      = st.events ++ [Event.genEv i d (env.predict d (modelOf st d) (monoOf inp d))] := by
  simp only [runHalf] at h
  cases hb : buildSynthetic (monoOf inp d) (env.predict d (modelOf st d) (monoOf inp d)) with
  | error e2 =>
    simp only [hb] at h
    have := (Prod.mk.injEq _ _ _ _).mp h
    rw [← this.1]
  | ok syn =>
    simp only [hb] at h
    cases hs : randomSample (env.pick st.logCtr) syn.rows.length 10 with
    | error e2 =>
      simp only [hs] at h
      have := (Prod.mk.injEq _ _ _ _).mp h
      rw [← this.1]
    | ok idxs =>
      simp only [hs] at h
      have := (Prod.mk.injEq _ _ _ _).mp h
      exact absurd this.2 (by simp)

theorem runHalf_none (env : Env) (inp : Inputs) (i : Nat) (d : Dir) (st st2 : LoopState)
    (h : runHalf env inp i d st = (st2, none)) :
    ∃ out syn idxs,
      buildSynthetic (monoOf inp d) out = Except.ok syn ∧
      out = env.predict d (modelOf st d) (monoOf inp d) ∧
      st2.events = st.events ++
        [Event.genEv i d out,
         Event.logEv i syn.rows idxs,
         Event.trainEv i d.opp ((authOf inp d.opp ++ syn.rows).map fixRow)
           (splitAux (env.splitFlags st.splitCtr)
             ((authOf inp d.opp ++ syn.rows).map fixRow)).fst
           (splitAux (env.splitFlags st.splitCtr)
             ((authOf inp d.opp ++ syn.rows).map fixRow)).snd] := by
  simp only [runHalf] at h
  cases hb : buildSynthetic (monoOf inp d) (env.predict d (modelOf st d) (monoOf inp d)) with
  | error e2 =>
    simp only [hb] at h
    have := (Prod.mk.injEq _ _ _ _).mp h
    exact absurd this.2 (by simp)
  | ok syn =>
    simp only [hb] at h
    cases hs : randomSample (env.pick st.logCtr) syn.rows.length 10 with
    | error e2 =>
      simp only [hs] at h
      have := (Prod.mk.injEq _ _ _ _).mp h
      exact absurd this.2 (by simp)
    | ok idxs =>
      simp only [hs] at h
      have := (Prod.mk.injEq _ _ _ _).mp h
      refine ⟨env.predict d (modelOf st d) (monoOf inp d), syn, idxs, hb, rfl, ?_⟩
      rw [← this.1, setTrained_events]
      simp [List.append_assoc]

theorem runIter_none (env : Env) (inp : Inputs) (i : Nat) (st st2 : LoopState)
    (h : runIter env inp i st = (st2, none)) :
    ∃ outA synA idxA fA outB synB idxB fB,
      buildSynthetic inp.tgtMono outA = Except.ok synA ∧
      buildSynthetic inp.srcMono outB = Except.ok synB ∧
      st2.events = st.events ++
        [Event.genEv i Dir.t2s outA,
         Event.logEv i synA.rows idxA,
         Event.trainEv i Dir.s2t ((inp.authS2T ++ synA.rows).map fixRow)
           (splitAux fA ((inp.authS2T ++ synA.rows).map fixRow)).fst
           (splitAux fA ((inp.authS2T ++ synA.rows).map fixRow)).snd,
         Event.genEv i Dir.s2t outB,
         Event.logEv i synB.rows idxB,
         Event.trainEv i Dir.t2s ((inp.authT2S ++ synB.rows).map fixRow)
           (splitAux fB ((inp.authT2S ++ synB.rows).map fixRow)).fst
           (splitAux fB ((inp.authT2S ++ synB.rows).map fixRow)).snd] := by
  unfold runIter at h
  cases hh : runHalf env inp i Dir.t2s st with
  | mk stm em =>
    rw [hh] at h
    cases em with
    | some e =>
      have := (Prod.mk.injEq _ _ _ _).mp h
      exact absurd this.2 (by simp)
    | none =>
      obtain ⟨outA, synA, idxA, hA, _, heA⟩ := runHalf_none env inp i Dir.t2s st stm hh
      obtain ⟨outB, synB, idxB, hB, _, heB⟩ := runHalf_none env inp i Dir.s2t stm st2 h
      refine ⟨outA, synA, idxA, env.splitFlags st.splitCtr, outB, synB, idxB,
        env.splitFlags stm.splitCtr, ?_, ?_, ?_⟩
      · simpa [monoOf] using hA
      · simpa [monoOf] using hB
      · rw [heB, heA]
        simp [monoOf, authOf, Dir.opp, List.append_assoc]

theorem runLoop_shape (env : Env) (inp : Inputs) :
    ∀ (rem i : Nat) (st st2 : LoopState), runLoop env inp i rem st = (st2, none) →
      ∃ blocks, st2.events = st.events ++ blocks ∧ EvBlocks inp rem blocks := by
  intro rem
  induction rem with
  | zero =>
    intro i st st2 h
    have h2 : st = st2 := ((Prod.mk.injEq _ _ _ _).mp h).1
    exact ⟨[], by rw [← h2]; simp, EvBlocks.nil⟩
  | succ m ih =>
    intro i st st2 h
    simp only [runLoop] at h
    cases hi : runIter env inp i st with
    | mk stm em =>
      rw [hi] at h
      cases em with
      | some e =>
        have := (Prod.mk.injEq _ _ _ _).mp h
        exact absurd this.2 (by simp)
      | none =>
        obtain ⟨blocks2, he2, hb2⟩ := ih (i + 1) stm st2 h
        obtain ⟨outA, synA, idxA, fA, outB, synB, idxB, fB, hA, hB, heA⟩ :=
          runIter_none env inp i st stm hi
        refine ⟨_, ?_, EvBlocks.cons m i outA synA idxA fA outB synB idxB fB blocks2 hA hB hb2⟩
        rw [he2, heA]
        simp [List.append_assoc]

theorem train_model_ok_shape (env : Env) (inp : Inputs) (s2t0 t2s0 : Model) (k : Nat)
    (h : exceptOk (train_model env inp s2t0 t2s0 k).outcome = true) :
    ∃ blocks, (train_model env inp s2t0 t2s0 k).events
        = (initState env inp s2t0 t2s0).events ++ blocks ∧ EvBlocks inp k blocks := by
  rcases hr : runLoop env inp 1 k (initState env inp s2t0 t2s0) with ⟨stF, err⟩
  cases err with
  | some e =>
    exfalso
    have : (train_model env inp s2t0 t2s0 k).outcome = Except.error e := by
      simp [train_model, hr]
    rw [this] at h
    simp [exceptOk] at h
  | none =>
    obtain ⟨blocks, he, hb⟩ := runLoop_shape env inp k 1 _ _ hr
    refine ⟨blocks, ?_, hb⟩
    have : (train_model env inp s2t0 t2s0 k).events = stF.events := by
      simp [train_model, hr]
    rw [this, he]

theorem length_join_replicate (k : Nat) (a b : Dir) :
    ((List.replicate k [a, b]).flatten).length = 2 * k := by
  induction k with
  | zero => rfl
  | succ m ih =>
    simp only [List.replicate_succ, List.flatten_cons, List.length_append, ih]
    simp [Nat.mul_succ]
    omega

theorem evblocks_dirs (inp : Inputs) :
    ∀ {rem : Nat} {l : List Event}, EvBlocks inp rem l →
      trainDirs l = (List.replicate rem [Dir.s2t, Dir.t2s]).flatten ∧
      genDirs l = (List.replicate rem [Dir.t2s, Dir.s2t]).flatten := by
  intro rem l h
  induction h with
  | nil => exact ⟨rfl, rfl⟩
  | cons rem i outA synA idxA fA outB synB idxB fB rest hA hB hrest ih =>
    constructor
    · simp only [trainDirs, List.filterMap_cons] at ih ⊢
      rw [ih.1]
      simp [List.replicate_succ]
    · simp only [genDirs, List.filterMap_cons] at ih ⊢
      rw [ih.2]
      simp [List.replicate_succ]

/-- C1: on every completed run, the trace has exactly `1 + 2k` training
phases — the warm-up target-to-source training followed per iteration
by one source-to-target and one target-to-source training — and exactly
`2k` generation phases; for `k = 0` the trace is the warm-up training
alone, zero generation and logging phases occur, and the
source-to-target model is returned untouched in its initial state. -/
theorem c1_phase_counts (env : Env) (inp : Inputs) (s2t0 t2s0 : Model) (k : Nat) :
    (exceptOk (train_model env inp s2t0 t2s0 k).outcome = true →
      trainDirs (train_model env inp s2t0 t2s0 k).events
          = Dir.t2s :: (List.replicate k [Dir.s2t, Dir.t2s]).flatten ∧
      genDirs (train_model env inp s2t0 t2s0 k).events
          = (List.replicate k [Dir.t2s, Dir.s2t]).flatten ∧
      (trainDirs (train_model env inp s2t0 t2s0 k).events).length = 1 + 2 * k ∧
      (genDirs (train_model env inp s2t0 t2s0 k).events).length = 2 * k) ∧
    (train_model env inp s2t0 t2s0 0).events
        = [Event.trainEv 0 Dir.t2s inp.authT2S
            (splitAux (env.splitFlags 0) inp.authT2S).fst
            (splitAux (env.splitFlags 0) inp.authT2S).snd] ∧
    (train_model env inp s2t0 t2s0 0).outcome
        = Except.ok (s2t0, t2s0 ++ [((splitAux (env.splitFlags 0) inp.authT2S).fst,
                                     (splitAux (env.splitFlags 0) inp.authT2S).snd)]) ∧
    genDirs (train_model env inp s2t0 t2s0 0).events = [] ∧
    numLogs (train_model env inp s2t0 t2s0 0).events = 0 := by
  refine ⟨?_, rfl, rfl, rfl, rfl⟩
  intro h
  obtain ⟨blocks, he, hb⟩ := train_model_ok_shape env inp s2t0 t2s0 k h
  have hd := evblocks_dirs inp hb
  have htr : trainDirs (train_model env inp s2t0 t2s0 k).events
      = Dir.t2s :: (List.replicate k [Dir.s2t, Dir.t2s]).flatten := by
    rw [he]
    simp only [trainDirs, List.filterMap_append] at hd ⊢
    rw [hd.1]
    rfl
  have hg : genDirs (train_model env inp s2t0 t2s0 k).events
      = (List.replicate k [Dir.t2s, Dir.s2t]).flatten := by
    rw [he]
    simp only [genDirs, List.filterMap_append] at hd ⊢
    rw [hd.2]
    rfl
  refine ⟨htr, hg, ?_, ?_⟩
  · rw [htr, List.length_cons, length_join_replicate]
    omega
  · rw [hg, length_join_replicate]

/-- Witness for C1 at a concrete one-iteration run that completes. -/
theorem c1_phase_counts_witness :
    exceptOk (train_model envW inpW [] [] 1).outcome = true ∧
    (trainDirs (train_model envW inpW [] [] 1).events
        = Dir.t2s :: (List.replicate 1 [Dir.s2t, Dir.t2s]).flatten ∧
      (trainDirs (train_model envW inpW [] [] 1).events).length = 1 + 2 * 1 ∧
      (genDirs (train_model envW inpW [] [] 1).events).length = 2 * 1) := by
  have hok : exceptOk (train_model envW inpW [] [] 1).outcome = true := by decide
  have h := (c1_phase_counts envW inpW [] [] 1).1 hok
  exact ⟨hok, h.1, h.2.2.1, h.2.2.2⟩

theorem altOk_cons_train (inp : Inputs) (i : Nat) (d : Dir) (merged tr te : List ParRow)
    (l : List Event) :
    altOk inp (Event.trainEv i d merged tr te :: l) = altOk inp l := by
  simp [altOk]

theorem evblocks_altOk (inp : Inputs) :
    ∀ {rem : Nat} {l : List Event}, EvBlocks inp rem l → altOk inp (phases l) = true := by
  intro rem l h
  induction h with
  | nil => rfl
  | cons rem i outA synA idxA fA outB synB idxB fB rest hA hB hrest ih =>
    simp only [phases, List.filter_cons] at ih ⊢
    simp only [altOk, pairCorpusOk, monoOf, authOf, Dir.opp, hA, hB]
    simp [ih, phases]

/-- C2: on every completed run, every generation phase is immediately
followed (among training and generation phases) by a training phase of
the same iteration and of the opposite direction, whose merged corpus
is that direction's authentic parallel data concatenated with the
synthetic corpus built from exactly this generation's output and then
mask-repaired: synthetic data predicted by the target-to-source model
is merged only into the source-to-target training corpus and vice
versa, so no model is ever trained on its own synthetic output. -/
theorem c2_opposite_directions (env : Env) (inp : Inputs) (s2t0 t2s0 : Model) (k : Nat)
    (h : exceptOk (train_model env inp s2t0 t2s0 k).outcome = true) :
    altOk inp (phases (train_model env inp s2t0 t2s0 k).events) = true := by
  obtain ⟨blocks, he, hb⟩ := train_model_ok_shape env inp s2t0 t2s0 k h
  rw [he]
  have : phases ((initState env inp s2t0 t2s0).events ++ blocks)
      = Event.trainEv 0 Dir.t2s inp.authT2S
          (splitAux (env.splitFlags 0) inp.authT2S).fst
          (splitAux (env.splitFlags 0) inp.authT2S).snd :: phases blocks := by
    simp [phases, initState, List.filter_append]
  rw [this, altOk_cons_train]
  exact evblocks_altOk inp hb

/-- Witness for C2 at a concrete one-iteration run that completes. -/
theorem c2_opposite_directions_witness :
    exceptOk (train_model envW inpW [] [] 1).outcome = true ∧
    altOk inpW (phases (train_model envW inpW [] [] 1).events) = true := by
  refine ⟨by decide, ?_⟩
  exact c2_opposite_directions envW inpW [] [] 1 (by decide)

/-- C8: a generated-sequence list whose length differs from the
monolingual corpus's row count makes the builder raise at the
`add_column` step; on success the builder's rows are exactly one per
monolingual row carrying the generated sequence verbatim (never
truncated or padded); and inside `train_model` such a mismatch at the
first generation aborts the whole run with an error before any
further training phase: the only training in the trace stays the
warm-up. -/
theorem c8_length_mismatch :
    (∀ (mono : List MonoRow) (gen : List Seq), gen.length ≠ mono.length →
      buildSynthetic mono gen = Except.error "add_column: column length mismatch") ∧
    (∀ (mono : List MonoRow) (gen : List Seq) (syn : SynCorpus),
      buildSynthetic mono gen = Except.ok syn →
      syn.rows.length = mono.length ∧
      (∀ j, (syn.rows.getD j dRow).input_ids = gen.getD j [])) ∧
    (∀ (env : Env) (inp : Inputs) (s2t0 t2s0 : Model) (k : Nat), 1 ≤ k →
      (∀ m : Model, (env.predict Dir.t2s m inp.tgtMono).length ≠ inp.tgtMono.length) →
      (∃ e, (train_model env inp s2t0 t2s0 k).outcome = Except.error e) ∧
      trainDirs (train_model env inp s2t0 t2s0 k).events = [Dir.t2s]) := by
  refine ⟨?_, ?_, ?_⟩
  · intro mono gen h
    unfold buildSynthetic
    rw [if_neg h]
  · intro mono gen syn h
    have hh := buildSynthetic_ok mono gen syn h
    exact ⟨hh.2.2.1, hh.2.2.2.2⟩
  · intro env inp s2t0 t2s0 k hk hm
    cases k with
    | zero => omega
    | succ m =>
      have hbuild : buildSynthetic (monoOf inp Dir.t2s)
          (env.predict Dir.t2s (modelOf (initState env inp s2t0 t2s0) Dir.t2s)
            (monoOf inp Dir.t2s))
          = Except.error "add_column: column length mismatch" := by
        unfold buildSynthetic
        rw [if_neg]
        exact hm _
      have hH : runLoop env inp 1 (m + 1) (initState env inp s2t0 t2s0)
          = ({ initState env inp s2t0 t2s0 with
                events := (initState env inp s2t0 t2s0).events
                  ++ [Event.genEv 1 Dir.t2s (env.predict Dir.t2s
                        (modelOf (initState env inp s2t0 t2s0) Dir.t2s)
                        (monoOf inp Dir.t2s))] },
             some "add_column: column length mismatch") := by
        simp only [runLoop, runIter, runHalf, hbuild]
      have h2 : (train_model env inp s2t0 t2s0 (m + 1)).events
          = (initState env inp s2t0 t2s0).events
            ++ [Event.genEv 1 Dir.t2s (env.predict Dir.t2s
                  (modelOf (initState env inp s2t0 t2s0) Dir.t2s) (monoOf inp Dir.t2s))] := by
        simp only [train_model]
        rw [hH]
      constructor
      · refine ⟨"add_column: column length mismatch", ?_⟩
        simp only [train_model]
        rw [hH]
      · rw [h2]
        simp [trainDirs, initState, List.filterMap_append]

/-- Witness for C8: an empty generated list against a one-row corpus is
rejected, and a run whose first generation returns the wrong number of
sequences aborts with only the warm-up training in its trace. -/
theorem c8_length_mismatch_witness :
    ((([] : List Seq).length ≠ ([⟨[5], [1]⟩] : List MonoRow).length) ∧
      buildSynthetic [⟨[5], [1]⟩] [] = Except.error "add_column: column length mismatch") ∧
    ((∃ e, (train_model envBadW inpW [] [] 1).outcome = Except.error e) ∧
      trainDirs (train_model envBadW inpW [] [] 1).events = [Dir.t2s]) := by
  refine ⟨⟨by decide, ?_⟩, ?_⟩
  · exact c8_length_mismatch.1 [⟨[5], [1]⟩] [] (by decide)
  · exact c8_length_mismatch.2.2 envBadW inpW [] [] 1 (by decide) (by intro m2; simp [envBadW, inpW])

theorem evblocks_logAdjOk (inp : Inputs) :
    ∀ {rem : Nat} {l : List Event}, EvBlocks inp rem l → logAdjOk inp l = true := by
  intro rem l h
  induction h with
  | nil => rfl
  | cons rem i outA synA idxA fA outB synB idxB fB rest hA hB hrest ih =>
    simp only [logAdjOk, logRowsOk, monoOf, hA, hB]
    simp [ih]

theorem evblocks_fixed (inp : Inputs) :
    ∀ {rem : Nat} {l : List Event}, EvBlocks inp rem l →
      ∀ i d merged tr te, Event.trainEv i d merged tr te ∈ l →
        (∀ r ∈ merged, fixedRow r) ∧ (∀ r ∈ tr, fixedRow r) ∧ (∀ r ∈ te, fixedRow r) := by
  intro rem l h
  induction h with
  | nil =>
    intro i d merged tr te hm
    simp at hm
  | cons rem i0 outA synA idxA fA outB synB idxB fB rest hA hB hrest ih =>
    intro i d merged tr te hm
    simp only [List.mem_cons] at hm
    rcases hm with h1 | h1 | h1 | h1 | h1 | h1 | h1
    · exact absurd h1 (by simp)
    · exact absurd h1 (by simp)
    · obtain ⟨_, _, hmg, htr, hte⟩ := (Event.trainEv.injEq _ _ _ _ _ _ _ _ _ _).mp h1
      subst hmg; subst htr; subst hte
      refine ⟨fun r hr => mem_map_fixRow_fixed hr, fun r hr => ?_, fun r hr => ?_⟩
      · exact mem_map_fixRow_fixed (splitAux_fst_subset _ _ r hr)
      · exact mem_map_fixRow_fixed (splitAux_snd_subset _ _ r hr)
    · exact absurd h1 (by simp)
    · exact absurd h1 (by simp)
    · obtain ⟨_, _, hmg, htr, hte⟩ := (Event.trainEv.injEq _ _ _ _ _ _ _ _ _ _).mp h1
      subst hmg; subst htr; subst hte
      refine ⟨fun r hr => mem_map_fixRow_fixed hr, fun r hr => ?_, fun r hr => ?_⟩
      · exact mem_map_fixRow_fixed (splitAux_fst_subset _ _ r hr)
      · exact mem_map_fixRow_fixed (splitAux_snd_subset _ _ r hr)
    · exact ih _ _ _ _ _ h1

theorem runHalf_fixedInv (env : Env) (inp : Inputs) (i : Nat) (d : Dir)
    (st st2 : LoopState) (em : Option String)
    (h : runHalf env inp i d st = (st2, em)) (hinv : FixedInv st.events) :
    FixedInv st2.events := by
  cases em with
  | some e =>
    have he := runHalf_err env inp i d st st2 e h
    intro j d2 merged tr te hm hj
    rw [he] at hm
    rcases List.mem_append.mp hm with hm | hm
    · exact hinv j d2 merged tr te hm hj
    · simp at hm
  | none =>
    obtain ⟨out, syn, idxs, hb, _, he⟩ := runHalf_none env inp i d st st2 h
    intro j d2 merged tr te hm hj
    rw [he] at hm
    rcases List.mem_append.mp hm with hm | hm
    · exact hinv j d2 merged tr te hm hj
    · simp only [List.mem_cons] at hm
      rcases hm with h1 | h1 | h1 | h1
      · exact absurd h1 (by simp)
      · exact absurd h1 (by simp)
      · obtain ⟨_, _, hmg, htr, hte⟩ := (Event.trainEv.injEq _ _ _ _ _ _ _ _ _ _).mp h1
        subst hmg; subst htr; subst hte
        refine ⟨fun r hr => mem_map_fixRow_fixed hr, fun r hr => ?_, fun r hr => ?_⟩
        · exact mem_map_fixRow_fixed (splitAux_fst_subset _ _ r hr)
        · exact mem_map_fixRow_fixed (splitAux_snd_subset _ _ r hr)
      · simp at h1

theorem runLoop_fixedInv (env : Env) (inp : Inputs) :
    ∀ (rem i : Nat) (st st2 : LoopState) (em : Option String),
      runLoop env inp i rem st = (st2, em) → FixedInv st.events → FixedInv st2.events := by
  intro rem
  induction rem with
  | zero =>
    intro i st st2 em h hinv
    obtain ⟨h1, _⟩ := (Prod.mk.injEq _ _ _ _).mp h
    rw [← h1]
    exact hinv
  | succ m ih =>
    intro i st st2 em h hinv
    simp only [runLoop] at h
    cases hi : runIter env inp i st with
    | mk stm em2 =>
      rw [hi] at h
      have hstm : FixedInv stm.events := by
        unfold runIter at hi
        cases hh : runHalf env inp i Dir.t2s st with
        | mk stm1 em1 =>
          rw [hh] at hi
          cases em1 with
          | some e =>
            obtain ⟨h1, _⟩ := (Prod.mk.injEq _ _ _ _).mp hi
            rw [← h1]
            exact runHalf_fixedInv env inp i Dir.t2s st stm1 _ hh hinv
          | none =>
            exact runHalf_fixedInv env inp i Dir.s2t stm1 stm _ hi
              (runHalf_fixedInv env inp i Dir.t2s st stm1 _ hh hinv)
      cases em2 with
      | some e =>
        obtain ⟨h1, _⟩ := (Prod.mk.injEq _ _ _ _).mp h
        rw [← h1]
        exact hstm
      | none => exact ih (i + 1) stm st2 em h hstm

/-- C10: in every run, every training phase of the loop body (iteration
at least 1, authentic parallel rows included) trains on a merged
corpus, and on train and eval partitions of it, whose every row has
sentinel-free `input_ids` and an all-ones attention mask of matching
length — the repair runs on the concatenated corpus before the split;
on completed runs every generation is immediately followed by a log of
the synthetic corpus exactly as built, before any repair, and a
concrete run logs a synthetic corpus still containing the pad sentinel
`0`. -/
theorem c10_repair_after_merge (env : Env) (inp : Inputs) (s2t0 t2s0 : Model) (k : Nat) :
    FixedInv (train_model env inp s2t0 t2s0 k).events ∧
    (exceptOk (train_model env inp s2t0 t2s0 k).outcome = true →
      logAdjOk inp (train_model env inp s2t0 t2s0 k).events = true) ∧
    (train_model envW inpW [] [] 1).events.any (fun e =>
      match e with
      | Event.logEv _ rows _ => rows.any (fun r => r.input_ids.contains 0)
      | _ => false) = true := by
  refine ⟨?_, ?_, by decide⟩
  · rcases hr : runLoop env inp 1 k (initState env inp s2t0 t2s0) with ⟨stF, err⟩
    have hev : (train_model env inp s2t0 t2s0 k).events = stF.events := by
      simp [train_model, hr]
    rw [hev]
    refine runLoop_fixedInv env inp k 1 _ _ _ hr ?_
    intro i d merged tr te hm hi
    simp only [initState, List.mem_singleton] at hm
    obtain ⟨hieq, _⟩ := (Event.trainEv.injEq _ _ _ _ _ _ _ _ _ _).mp hm
    omega
  · intro h
    obtain ⟨blocks, he, hb⟩ := train_model_ok_shape env inp s2t0 t2s0 k h
    rw [he]
    have hskip : logAdjOk inp ((initState env inp s2t0 t2s0).events ++ blocks)
        = logAdjOk inp blocks := by
      simp [initState, logAdjOk]
    rw [hskip]
    exact evblocks_logAdjOk inp hb

/-- Witness for C10 at the concrete one-iteration run: the recorded
source-to-target training phase of iteration 1 has fully repaired rows,
and the run's log events pass the adjacency check. -/
theorem c10_repair_after_merge_witness :
    (Event.trainEv 1 Dir.s2t mergedW trW teW ∈ (train_model envW inpW [] [] 1).events ∧
      (1 : Nat) ≤ 1 ∧ fixedRow ⟨[3, 4], [1, 1], [9]⟩) ∧
    (exceptOk (train_model envW inpW [] [] 1).outcome = true ∧
      logAdjOk inpW (train_model envW inpW [] [] 1).events = true) := by
  refine ⟨⟨by decide, by decide, ?_⟩, by decide, ?_⟩
  · exact ((c10_repair_after_merge envW inpW [] [] 1).1 1 Dir.s2t mergedW trW teW
      (by decide) (by decide)).2.1 ⟨[3, 4], [1, 1], [9]⟩ (by decide)
  · exact (c10_repair_after_merge envW inpW [] [] 1).2.1 (by decide)

end IBT
